import Mathlib

/-!
Verification development for the BLS CES data-wrangling pipeline
(`bls_ces/prep_CES_pandas.py` and `bls_ces/load_CES_pandas.py`).

Tables are modelled as lists of records; nullable cells are `Option`
values (pandas `NA`/`NaN` is `none`); numeric observation values are
rationals.  Pandas operations are modelled row by row:
`merge(..., how="left")` becomes `leftMerge`, `groupby` becomes the
sorted list of distinct keys (`groupKeys`) together with per-key
filtering, `Series.sum()` becomes a null-skipping sum (`optSum`), and
a raising column conversion becomes an `Except`-valued function.
Float division with a zero divisor (0.0/0.0, the only zero-divisor
case reachable with null-or-zero weights) yields NaN in pandas and is
modelled as `none`; IEEE infinities are not modelled.
-/

/-- The whitespace characters removed by Python `str.strip`. -/
def isPyWS (c : Char) : Bool :=
  c == ' ' || c == '\t' || c == '\n' || c == '\r' || c == '\x0b' || c == '\x0c'

/-- Character-list form of Python `str.strip`: drop whitespace from both ends. -/
def stripChars (l : List Char) : List Char :=
  ((l.dropWhile isPyWS).reverse.dropWhile isPyWS).reverse

/-- Python `str.strip`, as applied to key columns and matcher arguments. -/
def pyStrip (s : String) : String := ⟨stripChars s.data⟩

/-- Character-list version of Python `str.startswith`: does the first list start
with the second? -/
def charsStartWith : List Char → List Char → Bool
  | _, [] => true
  | [], _ :: _ => false
  | b :: ss, a :: ps => a == b && charsStartWith ss ps

/-- Python `s.startswith(p)`. -/
def pyStartsWith (s p : String) : Bool := charsStartWith s.data p.data

/-- Sign/digit split used by `pyInt?`. -/
def pyIntCore : List Char → Int × List Char
  | '+' :: r => (1, r)
  | '-' :: r => (-1, r)
  | r => (1, r)

/-- Decimal value of a digit list. -/
def digitsToNat (l : List Char) : Nat :=
  l.foldl (fun acc c => acc * 10 + (c.toNat - 48)) 0

/-- Python `int(s)` on a string: optional surrounding whitespace, optional sign,
then a nonempty run of digits; anything else raises `ValueError`, modelled as
`none`.  (Single underscores between digits are accepted by Python but never
occur in period codes and are not modelled.) -/
def pyInt? (s : String) : Option Int :=
  let p := pyIntCore (stripChars s.data)
  if p.2 ≠ [] ∧ p.2.all Char.isDigit then some (p.1 * (digitsToNat p.2 : Int)) else none

/-- The twelve monthly period codes. -/
def monthlyCodes : List String :=
  ["M01", "M02", "M03", "M04", "M05", "M06", "M07", "M08", "M09", "M10", "M11", "M12"]

/-- The twelve monthly codes followed by a trailing newline.  Python `re.match`
with the pattern anchored by a dollar sign also accepts a match that ends just
before a final newline, so the language of the monthly filter regex is
`monthlyCodes` together with these strings. -/
def monthlyCodesNL : List String := monthlyCodes.map (fun c => c ++ "\n")

/-- The monthly-period filter of `prep_CES_pandas.main` (line 155) and
`load_CES_pandas.extract_proxy_dataset` (line 168):
`period.str.match` of the pattern `M(0[1-9]|1[0-2])` anchored at both ends,
under Python `re.match` semantics. -/
def monthlyMatch (s : String) : Bool :=
  decide (s ∈ monthlyCodes) || decide (s ∈ monthlyCodesNL)

/-- Whether the first day of month `m` of year `y` is representable as a pandas
`Timestamp` (the `datetime64[ns]` range runs from 1677-09-21 to 2262-04-11) and
the year is parseable by `strptime` with `%Y`; outside this set
`pd.to_datetime` cannot produce the date. -/
def tsOK (y m : Int) : Bool :=
  decide ((1678 ≤ y ∧ y ≤ 2261) ∨ (y = 1677 ∧ 10 ≤ m) ∨ (y = 2262 ∧ m ≤ 4))

/-- `make_monthly_date` from `load_CES_pandas.py` (lines 145-154), per row:
`period.str.replace("M", "")` removes every `M`, `.astype(int)` converts that
text to an integer and raises `ValueError` on failure (modelled as
`.error ()`), and `pd.to_datetime(..., errors="coerce")` yields the first day
of the month, or `NaT` (modelled as `.ok none`) when the pieces do not form a
representable date.  A date is the pair (year, month) of its month's first
day. -/
def make_monthly_date (year : Int) (period : String) : Except Unit (Option (Int × Int)) :=
  match pyInt? ⟨period.data.filter (fun c => c != 'M')⟩ with
  | none => .error ()
  | some m => .ok (if 1 ≤ m ∧ m ≤ 12 ∧ tsOK year m then some (year, m) else none)

/-- `make_date` from `prep_CES_pandas.py` (lines 52-54): same as
`make_monthly_date` but `pd.to_datetime` is called without
`errors="coerce"`, so an unrepresentable date also raises. -/
def make_date (year : Int) (period : String) : Except Unit (Int × Int) :=
  match pyInt? ⟨period.data.filter (fun c => c != 'M')⟩ with
  | none => .error ()
  | some m => if 1 ≤ m ∧ m ≤ 12 ∧ tsOK year m then .ok (year, m) else .error ()

/-- `naics_mask` from `prep_CES_pandas.py` (lines 57-66), per cell: strip the
classification value (`NA` stays `NA`), then test exact membership in the
stripped exact codes (`isin`, with `NA` filled to `False`) or
`str.startswith` against the stripped prefix strings (`na=False`). -/
def naics_mask (naics : Option String) (exact prefs : List String) : Bool :=
  let s := naics.map pyStrip
  let mExact :=
    match s with
    | some v => decide (v ∈ exact.map pyStrip)
    | none => false
  let mPre :=
    match s with
    | some v => prefs.any (fun p => pyStartsWith v (pyStrip p))
    | none => false
  mExact || mPre

/-- `find_col` from `load_CES_pandas.build_dictionary` (lines 96-100): return
the first candidate column name present in the table's columns, or raise a
`KeyError` naming the candidates tried (the error payload). -/
def find_col (cols : List String) (cands : List String) : Except (List String) String :=
  match cands.find? (fun c => decide (c ∈ cols)) with
  | some c => .ok c
  | none => .error cands

/-- Row-level model of `pandas.DataFrame.merge(..., how="left")`: each left row
is paired with every matching right row, or kept once with nulls on the right
side when nothing matches.  Left row order is preserved. -/
def leftMerge {α β γ : Type*} (l : List α) (r : List β) (mt : α → β → Bool)
    (hit : α → β → γ) (miss : α → γ) : List γ :=
  l.flatMap (fun a =>
    let ms := r.filter (mt a)
    if ms.isEmpty then [miss a] else ms.map (hit a))

/-- Insertion into a list sorted by an integer key (stable: an inserted element
goes before existing elements with an equal key that came later in the fold). -/
def insertByKey {α : Type*} (key : α → Int) (a : α) : List α → List α
  | [] => [a]
  | b :: t => if key a ≤ key b then a :: b :: t else b :: insertByKey key a t

/-- Stable sort by an integer key; models `sort_values` and the ascending key
order of `groupby`. -/
def sortByKey {α : Type*} (key : α → Int) (l : List α) : List α :=
  l.foldr (insertByKey key) []

/-- The sorted list of distinct group keys produced by `DataFrame.groupby`
(with its default ascending key sort). -/
def groupKeys (l : List Int) : List Int := sortByKey id l.dedup

/-- `EMP_TEXT` from `prep_CES_pandas.py`. -/
def EMP_TEXT : String := "ALL EMPLOYEES, THOUSANDS"

/-- `AHE_TEXT` from `prep_CES_pandas.py`. -/
def AHE_TEXT : String := "AVERAGE HOURLY EARNINGS OF ALL EMPLOYEES"

/-- `Series.sum()` with its default `skipna=True` and `min_count=0`: nulls are
skipped and an empty or all-null column sums to 0. -/
def optSum (l : List (Option ℚ)) : ℚ := (l.filterMap id).sum

/-- An input row of `collapse_career`: the extracted table already filtered to
the two measures (so `datatype_text` is non-null), with its computed calendar
date (here an abstract integer key), BLS industry code (nullable, a merge key)
and parsed numeric value. -/
structure CRow where
  date : Int
  industry_code : Option String
  datatype_text : String
  value : Option ℚ
deriving DecidableEq

/-- An output row of `collapse_career`. -/
structure OutRow where
  date : Int
  employment_thousands : Option ℚ
  avg_hourly_earnings : Option ℚ
deriving DecidableEq

/-- The employment partition of `collapse_career` (line 70). -/
def empRows (df : List CRow) : List CRow :=
  df.filter (fun r => r.datatype_text == EMP_TEXT)

/-- The earnings partition of `collapse_career` (line 71). -/
def earnRows (df : List CRow) : List CRow :=
  df.filter (fun r => r.datatype_text == AHE_TEXT)

/-- The per-date employment sum `groupby("date")["value"].sum()` computes:
nulls skipped, all-null and empty groups summing to 0. -/
def empSumAt (df : List CRow) (d : Int) : ℚ :=
  optSum (((empRows df).filter (fun r => r.date == d)).map (fun r => r.value))

/-- `emp_m` of `collapse_career` (lines 74-78): per-date sums of the employment
values, one row per distinct date in ascending order. -/
def emp_m (df : List CRow) : List (Int × ℚ) :=
  (groupKeys ((empRows df).map (fun r => r.date))).map (fun d => (d, empSumAt df d))

/-- The merge of lines 81-86 of `collapse_career`: each earnings row is paired
with the employment value for the same (date, industry code), or with a null
weight when no employment row matches. -/
def earnW (df : List CRow) : List (CRow × Option ℚ) :=
  leftMerge (earnRows df) (empRows df)
    (fun r e => e.date == r.date && e.industry_code == r.industry_code)
    (fun r e => (r, e.value)) (fun r => (r, none))

/-- The per-date lambda of lines 88-94: null-skipping sum of products over
null-skipping sum of weights; a zero weight sum gives 0.0/0.0 = NaN (`none`). -/
def earnGroupAvg (df : List CRow) (d : Int) : Option ℚ :=
  let g := (earnW df).filter (fun p => p.1.date == d)
  let num := optSum (g.map (fun p => p.1.value.bind (fun v => p.2.map (fun w => v * w))))
  let den := optSum (g.map (fun p => p.2))
  if den = 0 then none else some (num / den)

/-- The rows of `earn_m` on the non-raising path: one weighted average per
distinct earnings date, in ascending date order. -/
def earnAvgRows (df : List CRow) : List (Int × Option ℚ) :=
  (groupKeys ((earnW df).map (fun p => p.1.date))).map (fun d => (d, earnGroupAvg df d))

/-- `earn_m` of `collapse_career` (lines 88-94): `groupby("date").apply(...)`
returns a Series of one weighted average per group when there is at least one
group, but with an EMPTY earnings partition it has no groups and returns an
empty DataFrame, so the subsequent Series-only `.to_frame(...)` raises
`AttributeError` — modelled as `.error ()`. -/
def earn_m (df : List CRow) : Except Unit (List (Int × Option ℚ)) :=
  if earnW df = [] then .error () else .ok (earnAvgRows df)

/-- The earnings column value attached at date `d` by the final left merge of
`collapse_career`: the group average when `d` has earnings rows, else null. -/
def earnOut (df : List CRow) (d : Int) : Option ℚ :=
  if d ∈ (earnW df).map (fun p => p.1.date) then earnGroupAvg df d else none

/-- The output table of `collapse_career` on the non-raising path: left-merge
the employment totals with the weighted averages on date, then sort by date. -/
def collapse_rows (df : List CRow) : List OutRow :=
  sortByKey (fun r => r.date)
    (leftMerge (emp_m df) (earnAvgRows df) (fun p q => q.1 == p.1)
      (fun p q => ⟨p.1, some p.2, q.2⟩) (fun p => ⟨p.1, some p.2, none⟩))

/-- `collapse_career` from `prep_CES_pandas.py` (lines 69-102): compute the
employment totals and the per-date weighted averages (raising `AttributeError`
when the earnings partition is empty), left-merge them on date and sort by
date. -/
def collapse_career (df : List CRow) : Except Unit (List OutRow) :=
  match earn_m df with
  | .error e => .error e
  | .ok em =>
    .ok (sortByKey (fun r => r.date)
      (leftMerge (emp_m df) em (fun p q => q.1 == p.1)
        (fun p q => ⟨p.1, some p.2, q.2⟩) (fun p => ⟨p.1, some p.2, none⟩)))

/-- The weighted-average formula exactly as claim C1 states it: both the
numerator and the denominator range only over earnings rows of the date that
have a non-null earnings value and a non-null matching employment weight. -/
def claimWeightedAvg (df : List CRow) (d : Int) : Option ℚ :=
  let qual := ((earnRows df).filter (fun r => r.date == d)).filterMap (fun r =>
    r.value.bind (fun v =>
      (((empRows df).find? (fun e => e.date == r.date && e.industry_code == r.industry_code)).bind
        (fun e => e.value)).map (fun w => (v, w))))
  let den := (qual.map (fun p => p.2)).sum
  if den = 0 then none else some ((qual.map (fun p => p.1 * p.2)).sum / den)

/-- The closed-form weighted average the code actually computes when the
employment rows have unique (date, industry code) keys: the numerator ranges
over earnings rows with a non-null value and a non-null matching weight, but
the denominator ranges over all earnings rows of the date with a non-null
matching weight — including rows whose earnings value is null. -/
def pandasWeightedAvg (df : List CRow) (d : Int) : Option ℚ :=
  let wOf : CRow → Option ℚ := fun r =>
    ((empRows df).find? (fun e => e.date == r.date && e.industry_code == r.industry_code)).bind
      (fun e => e.value)
  let g := (earnRows df).filter (fun r => r.date == d)
  let den := optSum (g.map wOf)
  let num := optSum (g.map (fun r => r.value.bind (fun v => (wOf r).map (fun w => v * w))))
  if den = 0 then none else some (num / den)

/-- The employment total exactly as claim C4 states it: the sum of the non-null
employment values of the date, or null when every employment value of the date
is null. -/
def claimEmpTotal (df : List CRow) (d : Int) : Option ℚ :=
  let vals := ((empRows df).filter (fun r => r.date == d)).map (fun r => r.value)
  if vals.all (fun v => v == none) then none else some (optSum vals)

/-- A row of the series registry (`ce.series` after key stripping), the
SeriesMetadata table: the series identifier with its industry code, datatype
code and seasonal-adjustment flag (the latter three nullable string cells). -/
structure SeriesRow where
  series_id : String
  industry_code : Option String
  datatype_code : Option String
  seasonal : Option String
deriving DecidableEq

/-- A row of the industry registry (`ce.industry`), the IndustryReference
table. -/
structure IndustryRow where
  industry_code : Option String
  naics_code : Option String
  industry_name : Option String
deriving DecidableEq

/-- A row of the datatype registry (`ce.datatype`), the DatatypeReference
table. -/
structure DatatypeRow where
  datatype_code : Option String
  datatype_text : Option String
deriving DecidableEq

/-- A row of the series dictionary produced by the double left-join. -/
structure DictRow where
  series_id : String
  industry_code : Option String
  datatype_code : Option String
  seasonal : Option String
  naics_code : Option String
  industry_name : Option String
  datatype_text : Option String
deriving DecidableEq

/-- The dictionary builder: `series_dict` of `prep_CES_pandas.main`
(lines 132-136), equally the merge of `load_CES_pandas.build_dictionary`
(lines 136-139): left-join the series registry to the industry registry on
industry code, then left-join the result to the datatype registry on datatype
code. -/
def build_dictionary (s : List SeriesRow) (ind : List IndustryRow)
    (dt : List DatatypeRow) : List DictRow :=
  leftMerge
    (leftMerge s ind (fun sr ir => ir.industry_code == sr.industry_code)
      (fun sr ir => (sr, ir.naics_code, ir.industry_name))
      (fun sr => (sr, none, none)))
    dt (fun p dr => dr.datatype_code == p.1.datatype_code)
    (fun p dr => ⟨p.1.series_id, p.1.industry_code, p.1.datatype_code, p.1.seasonal,
      p.2.1, p.2.2, dr.datatype_text⟩)
    (fun p => ⟨p.1.series_id, p.1.industry_code, p.1.datatype_code, p.1.seasonal,
      p.2.1, p.2.2, none⟩)

/-- The dictionary row the double left-join produces for one series row, when
the reference tables have unique keys: the series fields plus the looked-up
industry and datatype attributes (null when the key is absent). -/
def dictRowFor (ind : List IndustryRow) (dt : List DatatypeRow) (sr : SeriesRow) : DictRow :=
  let io := ind.find? (fun ir => ir.industry_code == sr.industry_code)
  let dto := dt.find? (fun dr => dr.datatype_code == sr.datatype_code)
  ⟨sr.series_id, sr.industry_code, sr.datatype_code, sr.seasonal,
    io.bind (fun ir => ir.naics_code), io.bind (fun ir => ir.industry_name),
    dto.bind (fun dr => dr.datatype_text)⟩

/-- A raw observation row (`ce.data.0.ALLCESSeries`) after the numeric parse of
`value` (`pd.to_numeric(..., errors="coerce")`, nulls for unparseable text) and
the integer cast of `year`. -/
structure DataRow where
  series_id : String
  year : Int
  period : String
  value : Option ℚ
deriving DecidableEq

/-- An extracted observation row: the raw fields with the dictionary columns
attached by the left-join (null when the series identifier is unmatched) and
the computed calendar date. -/
structure ObsRow where
  series_id : String
  year : Int
  period : String
  value : Option ℚ
  industry_code : Option String
  datatype_code : Option String
  seasonal : Option String
  naics_code : Option String
  industry_name : Option String
  datatype_text : Option String
  date : Int × Int
deriving DecidableEq

/-- Column-wise application of a conversion that can raise: the first failing
cell aborts the whole column, as a raising pandas conversion aborts the frame. -/
def mapExcept {α β ε : Type*} (f : α → Except ε β) : List α → Except ε (List β)
  | [] => .ok []
  | a :: t =>
    match f a with
    | .error e => .error e
    | .ok b =>
      match mapExcept f t with
      | .error e => .error e
      | .ok bs => .ok (b :: bs)

/-- Assemble an extracted row from a raw row, its (possibly missing) dictionary
row, and its date. -/
def mkObs (r : DataRow) (m : Option DictRow) (d : Int × Int) : ObsRow :=
  { series_id := r.series_id, year := r.year, period := r.period, value := r.value,
    industry_code := m.bind (fun x => x.industry_code),
    datatype_code := m.bind (fun x => x.datatype_code),
    seasonal := m.bind (fun x => x.seasonal),
    naics_code := m.bind (fun x => x.naics_code),
    industry_name := m.bind (fun x => x.industry_name),
    datatype_text := m.bind (fun x => x.datatype_text),
    date := d }

/-- The key-column stripping of `prep_CES_pandas.main` (lines 117-125) on the
observation table. -/
def prepStrip (data : List DataRow) : List DataRow :=
  data.map (fun r =>
    { r with series_id := pyStrip r.series_id, period := pyStrip r.period })

/-- The monthly-period filter of `prep_CES_pandas.main` (line 155), applied to
the stripped observation table. -/
def prepMonthly (data : List DataRow) : List DataRow :=
  (prepStrip data).filter (fun r => monthlyMatch r.period)

/-- The left-join of the monthly observations to the series dictionary on
series identifier (`prep_CES_pandas.main`, line 158). -/
def prepMerged (data : List DataRow) (sdict : List DictRow) :
    List (DataRow × Option DictRow) :=
  leftMerge (prepMonthly data) sdict (fun r m => m.series_id == r.series_id)
    (fun r m => (r, some m)) (fun r => (r, (none : Option DictRow)))

/-- The extraction steps of `prep_CES_pandas.main` (lines 117-179) for one
proxy: strip the key columns of the observation table, keep monthly periods
only, left-join the series dictionary on series identifier, compute the
calendar date (raising on a malformed period), strip the datatype text and
NAICS code columns, keep rows whose datatype text is in the measure whitelist,
and keep rows matching the proxy's NAICS mask. -/
def prep_extract (data : List DataRow) (sdict : List DictRow)
    (exact prefs measures : List String) : Except Unit (List ObsRow) :=
  match mapExcept (fun p => (make_date p.1.year p.1.period).map (mkObs p.1 p.2))
      (prepMerged data sdict) with
  | .error e => .error e
  | .ok rows =>
    .ok (((rows.map (fun r =>
        { r with datatype_text := r.datatype_text.map pyStrip,
                 naics_code := r.naics_code.map pyStrip })).filter
      (fun r => match r.datatype_text with
        | some t => decide (t ∈ measures)
        | none => false)).filter
      (fun r => naics_mask r.naics_code exact prefs))

/-! ### General lemmas about the table combinators -/

/-- `find?` returns the head of the filtered list. -/
theorem find?_eq_head?_filter {α : Type*} (p : α → Bool) :
    ∀ l : List α, l.find? p = (l.filter p).head?
  | [] => rfl
  | a :: t => by
    rw [List.find?_cons, List.filter_cons]
    cases h : p a with
    | true => rfl
    | false => exact find?_eq_head?_filter p t

/-- Filtering by a key value keeps at most one row of a table whose keys are
pairwise distinct. -/
theorem length_filter_le_one {β κ : Type*} (l : List β) (p : β → Bool)
    (key : β → κ) (k : κ) (hk : (l.map key).Nodup) (hp : ∀ b, p b = true → key b = k) :
    (l.filter p).length ≤ 1 := by
  match hfl : l.filter p with
  | [] => simp
  | [b] => simp
  | b1 :: b2 :: t =>
    exfalso
    have hsub : ((l.filter p).map key).Sublist (l.map key) :=
      (List.filter_sublist l).map key
    have hnd : ((l.filter p).map key).Nodup := hsub.nodup hk
    rw [hfl] at hnd
    have hm1 : b1 ∈ l.filter p := by rw [hfl]; exact List.mem_cons_self _ _
    have hm2 : b2 ∈ l.filter p := by
      rw [hfl]; exact List.mem_cons_of_mem _ (List.mem_cons_self _ _)
    have e1 : key b1 = k := hp b1 (List.mem_filter.mp hm1).2
    have e2 : key b2 = k := hp b2 (List.mem_filter.mp hm2).2
    rcases List.nodup_cons.mp hnd with ⟨hn1, _⟩
    exact hn1 (by rw [List.map_cons, List.mem_cons]; exact Or.inl (e1.trans e2.symm))

/-- Unfolding `leftMerge` on a cons cell. -/
theorem leftMerge_cons {α β γ : Type*} (a : α) (t : List α) (r : List β)
    (mt : α → β → Bool) (hit : α → β → γ) (miss : α → γ) :
    leftMerge (a :: t) r mt hit miss =
      (if (r.filter (mt a)).isEmpty then [miss a] else (r.filter (mt a)).map (hit a)) ++
        leftMerge t r mt hit miss := by
  simp [leftMerge, List.flatMap_cons]

/-- A left merge against a table whose matches are unique collapses to a map:
each left row picks up its unique match (via `find?`) or the null row. -/
theorem leftMerge_eq_map_of_unique {α β γ : Type*} (l : List α) (r : List β)
    (mt : α → β → Bool) (hit : α → β → γ) (miss : α → γ)
    (h : ∀ a ∈ l, (r.filter (mt a)).length ≤ 1) :
    leftMerge l r mt hit miss = l.map (fun a =>
      ((r.find? (mt a)).map (hit a)).getD (miss a)) := by
  induction l with
  | nil => rfl
  | cons a t ih =>
    have ha := h a (List.mem_cons_self a t)
    have ht := ih (fun x hx => h x (List.mem_cons_of_mem a hx))
    rw [leftMerge_cons, ht, List.map_cons, find?_eq_head?_filter]
    match hfl : r.filter (mt a) with
    | [] => simp
    | [b] => simp
    | b1 :: b2 :: t2 => rw [hfl] at ha; simp at ha

/-- Membership in a left merge. -/
theorem mem_leftMerge {α β γ : Type*} {c : γ} {l : List α} {r : List β}
    {mt : α → β → Bool} {hit : α → β → γ} {miss : α → γ} :
    c ∈ leftMerge l r mt hit miss ↔
      ∃ a ∈ l, (c = miss a ∧ r.filter (mt a) = []) ∨
        ∃ b ∈ r.filter (mt a), c = hit a b := by
  simp only [leftMerge, List.mem_flatMap]
  constructor
  · rintro ⟨a, ha, hc⟩
    refine ⟨a, ha, ?_⟩
    by_cases he : (r.filter (mt a)).isEmpty
    · rw [if_pos he] at hc
      simp at hc
      exact Or.inl ⟨hc, List.isEmpty_iff.mp he⟩
    · rw [if_neg he] at hc
      rcases List.mem_map.mp hc with ⟨b, hb, rfl⟩
      exact Or.inr ⟨b, hb, rfl⟩
  · rintro ⟨a, ha, (⟨rfl, hnil⟩ | ⟨b, hb, rfl⟩)⟩
    · refine ⟨a, ha, ?_⟩
      rw [if_pos (List.isEmpty_iff.mpr hnil)]
      exact List.mem_singleton.mpr rfl
    · refine ⟨a, ha, ?_⟩
      have hne : ¬(r.filter (mt a)).isEmpty := by
        intro hcon
        rw [List.isEmpty_iff.mp hcon] at hb
        simp at hb
      rw [if_neg hne]
      exact List.mem_map.mpr ⟨b, hb, rfl⟩

/-- Keys occurring in a left merge are exactly the keys of the left table, when
both the hit and miss rows inherit the left row's key. -/
theorem mem_key_leftMerge {α β γ : Type*} (l : List α) (r : List β)
    (mt : α → β → Bool) (hit : α → β → γ) (miss : α → γ)
    (key : γ → Int) (keyA : α → Int)
    (hhit : ∀ a b, key (hit a b) = keyA a) (hmiss : ∀ a, key (miss a) = keyA a)
    (d : Int) :
    d ∈ (leftMerge l r mt hit miss).map key ↔ d ∈ l.map keyA := by
  constructor
  · intro hd
    rcases List.mem_map.mp hd with ⟨c, hc, rfl⟩
    rcases mem_leftMerge.mp hc with ⟨a, ha, (⟨rfl, -⟩ | ⟨b, -, rfl⟩)⟩
    · exact List.mem_map.mpr ⟨a, ha, (hmiss a).symm⟩
    · exact List.mem_map.mpr ⟨a, ha, (hhit a b).symm⟩
  · intro hd
    rcases List.mem_map.mp hd with ⟨a, ha, rfl⟩
    by_cases he : r.filter (mt a) = []
    · exact List.mem_map.mpr ⟨miss a, mem_leftMerge.mpr ⟨a, ha, Or.inl ⟨rfl, he⟩⟩, hmiss a⟩
    · rcases List.exists_mem_of_ne_nil _ he with ⟨b, hb⟩
      exact List.mem_map.mpr ⟨hit a b, mem_leftMerge.mpr ⟨a, ha, Or.inr ⟨b, hb, rfl⟩⟩, hhit a b⟩

/-- Filtering a left merge on the (inherited) key filters the left table. -/
theorem filter_leftMerge_key {α β γ : Type*} (l : List α) (r : List β)
    (mt : α → β → Bool) (hit : α → β → γ) (miss : α → γ)
    (key : γ → Int) (keyA : α → Int)
    (hhit : ∀ a b, key (hit a b) = keyA a) (hmiss : ∀ a, key (miss a) = keyA a)
    (d : Int) :
    (leftMerge l r mt hit miss).filter (fun c => key c == d) =
      leftMerge (l.filter (fun a => keyA a == d)) r mt hit miss := by
  induction l with
  | nil => rfl
  | cons a t ih =>
    rw [leftMerge_cons, List.filter_append, ih, List.filter_cons]
    have hchunk : ∀ c ∈ (if (r.filter (mt a)).isEmpty then [miss a]
        else (r.filter (mt a)).map (hit a)), key c = keyA a := by
      intro c hc
      by_cases he : (r.filter (mt a)).isEmpty
      · rw [if_pos he] at hc
        rw [List.mem_singleton.mp hc]; exact hmiss a
      · rw [if_neg he] at hc
        rcases List.mem_map.mp hc with ⟨b, -, rfl⟩
        exact hhit a b
    by_cases hd : keyA a = d
    · have : (keyA a == d) = true := beq_iff_eq.mpr hd
      rw [this, if_pos rfl, leftMerge_cons]
      congr 1
      apply List.filter_eq_self.mpr
      intro c hc
      exact beq_iff_eq.mpr ((hchunk c hc).trans hd)
    · have : (keyA a == d) = false := beq_eq_false_iff_ne.mpr hd
      rw [this, if_neg Bool.false_ne_true]
      have hnil : (if (r.filter (mt a)).isEmpty then [miss a]
          else (r.filter (mt a)).map (hit a)).filter (fun c => key c == d) = [] := by
        apply List.filter_eq_nil_iff.mpr
        intro c hc
        simp only [beq_iff_eq]
        rw [hchunk c hc]
        exact hd
      rw [hnil, List.nil_append]

/-- A flat map all of whose blocks are singletons is a map. -/
theorem flatMap_congr_singleton {α β : Type*} (l : List α) (f : α → List β) (g : α → β)
    (h : ∀ a ∈ l, f a = [g a]) : l.flatMap f = l.map g := by
  induction l with
  | nil => rfl
  | cons a t ih =>
    rw [List.flatMap_cons, h a (List.mem_cons_self a t),
      ih (fun x hx => h x (List.mem_cons_of_mem a hx)), List.map_cons, List.singleton_append]

/-- Filtering a keyed map of distinct keys gives the single matching row. -/
theorem filter_map_keys {β : Type*} (ks : List Int) (f : Int → β) (d : Int) (hk : ks.Nodup) :
    ((ks.map (fun k => (k, f k))).filter (fun q => q.1 == d)) =
      if d ∈ ks then [(d, f d)] else [] := by
  induction ks with
  | nil => rfl
  | cons k t ih =>
    rcases List.nodup_cons.mp hk with ⟨hk1, hk2⟩
    rw [List.map_cons]
    by_cases h : k = d
    · subst h
      simp only [List.filter_cons]
      rw [if_pos (show ((k, f k).1 == k) = true from beq_self_eq_true k), ih hk2, if_neg hk1,
        if_pos (List.mem_cons_self k t)]
    · simp only [List.filter_cons]
      rw [if_neg (show ¬((k, f k).1 == d) = true from fun hc => h (beq_iff_eq.mp hc)), ih hk2]
      have hiff : (d ∈ k :: t) ↔ (d ∈ t) := by
        rw [List.mem_cons]
        exact or_iff_right (fun hdk => h hdk.symm)
      rw [if_congr hiff rfl rfl]

/-- Insertion produces a permutation of consing. -/
theorem insertByKey_perm {α : Type*} (key : α → Int) (a : α) (l : List α) :
    (insertByKey key a l).Perm (a :: l) := by
  induction l with
  | nil => exact List.Perm.refl _
  | cons b t ih =>
    rw [insertByKey]
    by_cases h : key a ≤ key b
    · rw [if_pos h]
    · rw [if_neg h]
      exact (ih.cons b).trans (List.Perm.swap a b t)

/-- Sorting by key is a permutation. -/
theorem sortByKey_perm {α : Type*} (key : α → Int) (l : List α) :
    (sortByKey key l).Perm l := by
  induction l with
  | nil => exact List.Perm.refl _
  | cons a t ih => exact (insertByKey_perm key a _).trans (ih.cons a)

/-- Insertion preserves sortedness by key. -/
theorem insertByKey_pairwise {α : Type*} (key : α → Int) (a : α) (l : List α)
    (h : l.Pairwise (fun x y => key x ≤ key y)) :
    (insertByKey key a l).Pairwise (fun x y => key x ≤ key y) := by
  induction l with
  | nil => simp [insertByKey]
  | cons b t ih =>
    rcases List.pairwise_cons.mp h with ⟨hb, ht⟩
    rw [insertByKey]
    by_cases hab : key a ≤ key b
    · rw [if_pos hab]
      refine List.pairwise_cons.mpr ⟨?_, h⟩
      intro x hx
      rcases List.mem_cons.mp hx with rfl | hx
      · exact hab
      · exact le_trans hab (hb x hx)
    · rw [if_neg hab]
      refine List.pairwise_cons.mpr ⟨?_, ih ht⟩
      intro x hx
      rcases List.mem_cons.mp ((insertByKey_perm key a t).mem_iff.mp hx) with rfl | hx
      · exact le_of_not_le hab
      · exact hb x hx

/-- The key sort is sorted (weakly) by key. -/
theorem sortByKey_pairwise {α : Type*} (key : α → Int) (l : List α) :
    (sortByKey key l).Pairwise (fun x y => key x ≤ key y) := by
  induction l with
  | nil => exact List.Pairwise.nil
  | cons a t ih => exact insertByKey_pairwise key a _ ih

/-- Group keys are distinct. -/
theorem groupKeys_nodup (l : List Int) : (groupKeys l).Nodup :=
  ((sortByKey_perm id l.dedup).nodup_iff).mpr (List.nodup_dedup l)

/-- Group keys are exactly the values occurring in the key column. -/
theorem mem_groupKeys {l : List Int} {d : Int} : d ∈ groupKeys l ↔ d ∈ l :=
  (sortByKey_perm id l.dedup).mem_iff.trans List.mem_dedup

/-- A null-skipping sum over only nulls and zeros is zero. -/
theorem optSum_eq_zero {l : List (Option ℚ)} (h : ∀ x ∈ l, x = none ∨ x = some 0) :
    optSum l = 0 := by
  induction l with
  | nil => rfl
  | cons a t ih =>
    have ht := ih (fun x hx => h x (List.mem_cons_of_mem a hx))
    rcases h a (List.mem_cons_self a t) with rfl | rfl
    · simpa [optSum, List.filterMap_cons] using ht
    · simp only [optSum, List.filterMap_cons, id] at ht ⊢
      rw [List.sum_cons, ht, add_zero]

/-- The head surviving `dropWhile` fails the dropped predicate. -/
theorem dropWhile_head_false {α : Type*} (p : α → Bool) :
    ∀ (l : List α) (a : α), (l.dropWhile p).head? = some a → p a = false
  | [], a => by intro h; simp [List.dropWhile] at h
  | b :: t, a => by
    intro h
    rw [List.dropWhile_cons] at h
    by_cases hb : p b
    · rw [if_pos hb] at h
      exact dropWhile_head_false p t a h
    · rw [if_neg hb] at h
      rw [List.head?_cons, Option.some_inj] at h
      rw [← h]
      exact Bool.not_eq_true _ |>.mp hb

/-- A stripped string never ends in a whitespace character. -/
theorem stripChars_getLast_not_ws (l : List Char) (c : Char)
    (h : (stripChars l).getLast? = some c) : isPyWS c = false := by
  unfold stripChars at h
  rw [List.getLast?_reverse] at h
  exact dropWhile_head_false isPyWS _ c h

/-- A stripped period value accepted by the monthly regex is one of the twelve
monthly codes (the trailing-newline matches cannot survive stripping). -/
theorem monthly_of_match_strip (s : String) (h : monthlyMatch (pyStrip s) = true) :
    pyStrip s ∈ monthlyCodes := by
  have hor : pyStrip s ∈ monthlyCodes ∨ pyStrip s ∈ monthlyCodesNL := by
    unfold monthlyMatch at h
    simpa using h
  rcases hor with h1 | h2
  · exact h1
  · exfalso
    have hmem : pyStrip s ∈ monthlyCodesNL := h2
    have hlast : ∀ x ∈ monthlyCodesNL, x.data.getLast? = some '\n' := by decide
    have hns : (stripChars s.data).getLast? = some '\n' := hlast _ hmem
    have := stripChars_getLast_not_ws s.data '\n' hns
    simp [isPyWS] at this

/-- Rows of a successful raising column conversion come from input rows. -/
theorem mapExcept_ok_mem {α β ε : Type*} (f : α → Except ε β) :
    ∀ (l : List α) (ys : List β), mapExcept f l = .ok ys → ∀ y ∈ ys, ∃ x ∈ l, f x = .ok y
  | [], ys, h => by
    intro y hy
    rw [mapExcept] at h
    cases h
    simp at hy
  | a :: t, ys, h => by
    intro y hy
    rw [mapExcept] at h
    cases hfa : f a with
    | error e => rw [hfa] at h; cases h
    | ok b =>
      rw [hfa] at h
      cases hft : mapExcept f t with
      | error e => rw [hft] at h; cases h
      | ok bs =>
        rw [hft] at h
        cases h
        rcases List.mem_cons.mp hy with rfl | hy
        · exact ⟨a, List.mem_cons_self a t, hfa⟩
        · rcases mapExcept_ok_mem f t bs hft y hy with ⟨x, hx, hfx⟩
          exact ⟨x, List.mem_cons_of_mem a hx, hfx⟩

/-- `charsStartWith` is list-prefix. -/
theorem charsStartWith_iff : ∀ (s p : List Char), charsStartWith s p = true ↔ p <+: s
  | s, [] => by simp [charsStartWith]
  | [], a :: ps => by
    constructor
    · intro h; cases h
    · intro h
      rcases h with ⟨t, ht⟩
      cases ht
  | b :: ss, a :: ps => by
    rw [charsStartWith, Bool.and_eq_true, beq_iff_eq, List.cons_prefix_cons,
      charsStartWith_iff ss ps]

/-- Where the first candidate accepted by `find?` sits in the list. -/
theorem find?_eq_some_split {α : Type*} (p : α → Bool) :
    ∀ (l : List α) (c : α), l.find? p = some c ↔
      p c = true ∧ ∃ pre post, l = pre ++ c :: post ∧ ∀ x ∈ pre, p x = false
  | [], c => by simp
  | a :: t, c => by
    rw [List.find?_cons]
    cases ha : p a with
    | true =>
      constructor
      · intro h
        rw [Option.some_inj] at h
        subst h
        exact ⟨ha, [], t, rfl, by intro x hx; cases hx⟩
      · rintro ⟨hc, pre, post, hsplit, hpre⟩
        cases pre with
        | nil =>
          rw [List.nil_append] at hsplit
          cases hsplit
          rfl
        | cons q qre =>
          rw [List.cons_append] at hsplit
          injection hsplit with h1 h2
          subst h1
          rw [hpre a (List.mem_cons_self a qre)] at ha
          cases ha
    | false =>
      rw [find?_eq_some_split p t c]
      constructor
      · rintro ⟨hc, pre, post, hsplit, hpre⟩
        subst hsplit
        refine ⟨hc, a :: pre, post, rfl, ?_⟩
        intro x hx
        rcases List.mem_cons.mp hx with rfl | hx
        · exact ha
        · exact hpre x hx
      · rintro ⟨hc, pre, post, hsplit, hpre⟩
        cases pre with
        | nil =>
          rw [List.nil_append] at hsplit
          cases hsplit
          rw [hc] at ha
          cases ha
        | cons q qre =>
          rw [List.cons_append] at hsplit
          injection hsplit with h1 h2
          subst h1
          subst h2
          exact ⟨hc, qre, post, rfl, fun x hx => hpre x (List.mem_cons_of_mem a hx)⟩

/-! ### Structure of `collapse_career` -/

/-- Dates occurring in the earnings-weight merge are the earnings dates. -/
theorem earnW_dates_mem (df : List CRow) (d : Int) :
    d ∈ (earnW df).map (fun p => p.1.date) ↔ d ∈ (earnRows df).map (fun r => r.date) := by
  unfold earnW
  exact mem_key_leftMerge (earnRows df) (empRows df)
    (fun r e => e.date == r.date && e.industry_code == r.industry_code)
    (fun r e => (r, e.value)) (fun r => (r, none))
    (fun p => p.1.date) (fun r => r.date) (fun a b => rfl) (fun a => rfl) d

/-- The keys of `emp_m` are the sorted distinct employment dates. -/
theorem emp_m_fst (df : List CRow) :
    (emp_m df).map Prod.fst = groupKeys ((empRows df).map (fun r => r.date)) := by
  rw [emp_m, List.map_map]
  have hfun : (Prod.fst ∘ fun d : Int => ((d, empSumAt df d) : Int × ℚ)) = id := rfl
  rw [hfun, List.map_id]

/-- Looking a date up in the weighted-average rows gives its group average,
when present. -/
theorem earnAvgRows_filter_eq (df : List CRow) (d : Int) :
    (earnAvgRows df).filter (fun q => q.1 == d) =
      if d ∈ (earnW df).map (fun p => p.1.date) then [(d, earnGroupAvg df d)] else [] := by
  rw [earnAvgRows, filter_map_keys _ _ _ (groupKeys_nodup _)]
  exact if_congr mem_groupKeys rfl rfl

/-- The final merge of `collapse_career` is a map over the employment totals,
attaching `earnOut` at each date. -/
theorem collapse_merged_eq (df : List CRow) :
    leftMerge (emp_m df) (earnAvgRows df) (fun p q => q.1 == p.1)
      (fun p q => (⟨p.1, some p.2, q.2⟩ : OutRow)) (fun p => ⟨p.1, some p.2, none⟩) =
      (emp_m df).map (fun p => (⟨p.1, some p.2, earnOut df p.1⟩ : OutRow)) := by
  unfold leftMerge
  apply flatMap_congr_singleton
  intro p hp
  rw [earnAvgRows_filter_eq df p.1]
  by_cases hd : p.1 ∈ (earnW df).map (fun q => q.1.date)
  · rw [if_pos hd]
    simp only [earnOut, if_pos hd]
    rfl
  · rw [if_neg hd]
    simp only [earnOut, if_neg hd]
    rfl

/-- Membership characterisation of the non-raising output of
`collapse_career`. -/
theorem mem_collapse_rows_iff (df : List CRow) (r : OutRow) :
    r ∈ collapse_rows df ↔ ∃ d ∈ (empRows df).map (fun x => x.date),
      r = ⟨d, some (empSumAt df d), earnOut df d⟩ := by
  unfold collapse_rows
  rw [collapse_merged_eq, (sortByKey_perm (fun r : OutRow => r.date) _).mem_iff, emp_m,
    List.map_map]
  simp only [List.mem_map, Function.comp]
  constructor
  · rintro ⟨d, hd, rfl⟩
    exact ⟨d, List.mem_map.mp (mem_groupKeys.mp hd), rfl⟩
  · rintro ⟨d, hd, hr⟩
    exact ⟨d, mem_groupKeys.mpr (List.mem_map.mpr hd), hr.symm⟩

/-- A successful run of `collapse_career` produces exactly the non-raising
output table. -/
theorem collapse_career_ok (df : List CRow) (out : List OutRow)
    (h : collapse_career df = .ok out) : out = collapse_rows df := by
  unfold collapse_career earn_m at h
  by_cases he : earnW df = []
  · rw [if_pos he] at h
    exact Except.noConfusion h
  · rw [if_neg he] at h
    injection h with h2
    rw [← h2]
    rfl

/-- With no earnings rows at all, `collapse_career` raises (the empty
`groupby.apply` result is a DataFrame and `.to_frame` fails) instead of
producing an output table. -/
theorem collapse_career_error_of_no_earn (df : List CRow)
    (h : earnRows df = []) : collapse_career df = .error () := by
  have he : earnW df = [] := by
    unfold earnW
    rw [h]
    rfl
  unfold collapse_career earn_m
  rw [if_pos he]

/-- Filtering the earnings-weight merge to one date merges the filtered
earnings rows. -/
theorem earnW_filter_date (df : List CRow) (d : Int) :
    (earnW df).filter (fun p => p.1.date == d) =
      leftMerge ((earnRows df).filter (fun r => r.date == d)) (empRows df)
        (fun r e => e.date == r.date && e.industry_code == r.industry_code)
        (fun r e => (r, e.value)) (fun r => (r, none)) := by
  unfold earnW
  exact filter_leftMerge_key (earnRows df) (empRows df)
    (fun r e => e.date == r.date && e.industry_code == r.industry_code)
    (fun r e => (r, e.value)) (fun r => (r, none))
    (fun p => p.1.date) (fun r => r.date) (fun a b => rfl) (fun a => rfl) d

/-- With unique employment (date, industry) keys, each earnings row matches at
most one employment row. -/
theorem emp_match_unique (df : List CRow)
    (h : ((empRows df).map (fun e => (e.date, e.industry_code))).Nodup) (a : CRow) :
    ((empRows df).filter
      (fun e => e.date == a.date && e.industry_code == a.industry_code)).length ≤ 1 := by
  apply length_filter_le_one _ _ (fun e => (e.date, e.industry_code)) (a.date, a.industry_code) h
  intro b hb
  have hb2 : b.date = a.date ∧ b.industry_code = a.industry_code := by
    simpa using hb
  rw [hb2.1, hb2.2]

/-- The attached earnings value equals the closed-form pandas weighted average
whenever the employment keys are unique. -/
theorem earnOut_eq_pandas (df : List CRow)
    (h : ((empRows df).map (fun e => (e.date, e.industry_code))).Nodup) (d : Int) :
    earnOut df d = pandasWeightedAvg df d := by
  by_cases hd : d ∈ (earnW df).map (fun p => p.1.date)
  · simp only [earnOut, if_pos hd]
    simp only [earnGroupAvg, pandasWeightedAvg]
    rw [earnW_filter_date,
      leftMerge_eq_map_of_unique _ _ _ _ _ (fun a ha => emp_match_unique df h a)]
    have hM : ∀ a ∈ (earnRows df).filter (fun r => r.date == d),
        (((empRows df).find?
            (fun e => e.date == a.date && e.industry_code == a.industry_code)).map
          (fun e => (a, e.value))).getD (a, none) =
        (a, ((empRows df).find?
            (fun e => e.date == a.date && e.industry_code == a.industry_code)).bind
          (fun e => e.value)) := by
      intro a _
      cases hP : (empRows df).find?
          (fun e => e.date == a.date && e.industry_code == a.industry_code) with
      | some b => rfl
      | none => rfl
    rw [List.map_congr_left hM, List.map_map, List.map_map]
    rfl
  · simp only [earnOut, if_neg hd]
    have hnil : (earnRows df).filter (fun r => r.date == d) = [] := by
      apply List.filter_eq_nil_iff.mpr
      intro r hr hc
      exact hd ((earnW_dates_mem df d).mpr (List.mem_map.mpr ⟨r, hr, beq_iff_eq.mp hc⟩))
    simp only [pandasWeightedAvg]
    rw [hnil]
    simp [optSum]

/-- In a date group, every attached weight is an employment value of that date
(or null). -/
theorem earnW_weight_null_or_zero (df : List CRow) (d : Int)
    (hnull : ∀ e ∈ df, e.datatype_text = EMP_TEXT → e.date = d →
      (e.value = none ∨ e.value = some 0)) :
    ∀ p ∈ (earnW df).filter (fun p => p.1.date == d), p.2 = none ∨ p.2 = some 0 := by
  intro p hp
  rcases List.mem_filter.mp hp with ⟨hpw, hdate⟩
  have hpw2 := hpw
  unfold earnW at hpw2
  rcases mem_leftMerge.mp hpw2 with ⟨a, ha, (⟨rfl, -⟩ | ⟨b, hb, rfl⟩)⟩
  · exact Or.inl rfl
  · rcases List.mem_filter.mp hb with ⟨hbemp, hbmt⟩
    rcases List.mem_filter.mp hbemp with ⟨hbdf, hbdt⟩
    have hmtp : b.date = a.date ∧ b.industry_code = a.industry_code := by simpa using hbmt
    have hadate : a.date = d := by simpa using hdate
    exact hnull b hbdf (by simpa using hbdt) (hmtp.1.trans hadate)

/-! ### Claim theorems for the weighted aggregator -/

/-- C9: whenever `collapse_career` produces an output table, its rows are in
strictly ascending calendar-date order; in particular there are no duplicate
dates and exactly one row per output date. -/
theorem collapse_output_strictly_sorted_by_date (df : List CRow) (out : List OutRow)
    (hok : collapse_career df = .ok out) :
    out.Pairwise (fun a b => a.date < b.date) := by
  rw [collapse_career_ok df out hok]
  have hle : (collapse_rows df).Pairwise (fun a b => a.date ≤ b.date) := by
    unfold collapse_rows
    exact sortByKey_pairwise _ _
  have hperm : (collapse_rows df).Perm
      ((emp_m df).map (fun p => (⟨p.1, some p.2, earnOut df p.1⟩ : OutRow))) := by
    unfold collapse_rows
    rw [collapse_merged_eq]
    exact sortByKey_perm _ _
  have hnodup : ((collapse_rows df).map (fun r => r.date)).Nodup := by
    refine (hperm.map (fun r => r.date)).nodup_iff.mpr ?_
    rw [List.map_map]
    have hfun : ((fun r : OutRow => r.date) ∘
        (fun p : Int × ℚ => (⟨p.1, some p.2, earnOut df p.1⟩ : OutRow))) = Prod.fst := rfl
    rw [hfun, emp_m_fst]
    exact groupKeys_nodup _
  have hne : (collapse_rows df).Pairwise (fun a b => a.date ≠ b.date) :=
    List.pairwise_map.mp hnodup
  exact (hle.and hne).imp (fun hab => lt_of_le_of_ne hab.1 hab.2)

/-- Instance of C9 at a concrete two-date input (with an earnings row, so the
run succeeds). -/
theorem collapse_output_strictly_sorted_by_date_witness :
    ([⟨3, some 0, none⟩, ⟨7, some 0, none⟩] : List OutRow).Pairwise
      (fun a b => a.date < b.date) :=
  collapse_output_strictly_sorted_by_date
    [⟨7, some "A", EMP_TEXT, none⟩, ⟨3, some "A", EMP_TEXT, none⟩,
     ⟨3, some "A", AHE_TEXT, none⟩]
    [⟨3, some 0, none⟩, ⟨7, some 0, none⟩] rfl

/-- C4 (amended): whenever `collapse_career` produces an output table, the
employment total of every output row is the null-skipping sum of the
employment values of its date; in particular a date whose employment values
are all null gets total 0, not null. -/
theorem collapse_employment_total_sum_skipna (df : List CRow) (out : List OutRow)
    (r : OutRow) (hok : collapse_career df = .ok out) (hr : r ∈ out) :
    r.employment_thousands = some (empSumAt df r.date) ∧
    ((∀ e ∈ df, e.datatype_text = EMP_TEXT → e.date = r.date → e.value = none) →
      r.employment_thousands = some 0) := by
  rw [collapse_career_ok df out hok] at hr
  rcases (mem_collapse_rows_iff df r).mp hr with ⟨d, hd, rfl⟩
  refine ⟨rfl, ?_⟩
  intro hall
  show some (empSumAt df d) = some 0
  congr 1
  unfold empSumAt
  apply optSum_eq_zero
  intro x hx
  rcases List.mem_map.mp hx with ⟨e, he, rfl⟩
  rcases List.mem_filter.mp he with ⟨heemp, hedate⟩
  rcases List.mem_filter.mp heemp with ⟨hedf, hedt⟩
  exact Or.inl (hall e hedf (beq_iff_eq.mp hedt) (beq_iff_eq.mp hedate))

/-- Instance of C4's amended statement at a concrete non-raising input (it has
an earnings row). -/
theorem collapse_employment_total_sum_skipna_witness :
    (⟨3, some 0, none⟩ : OutRow).employment_thousands =
      some (empSumAt [⟨3, some "A", EMP_TEXT, none⟩, ⟨3, some "A", AHE_TEXT, none⟩]
        (⟨3, some 0, none⟩ : OutRow).date) :=
  (collapse_employment_total_sum_skipna
    [⟨3, some "A", EMP_TEXT, none⟩, ⟨3, some "A", AHE_TEXT, none⟩]
    [⟨3, some 0, none⟩] ⟨3, some 0, none⟩ rfl (by decide)).1

/-- C4 fails as stated: for a date whose only employment value is null (and
which has an earnings row, so the run succeeds), the code outputs the total 0
(pandas `sum` with `min_count=0`), while the claim demands a null total. -/
theorem collapse_employment_all_null_gives_zero :
    collapse_career [⟨0, some "A", EMP_TEXT, none⟩, ⟨0, some "A", AHE_TEXT, none⟩] =
      .ok [⟨0, some 0, none⟩] ∧
    claimEmpTotal [⟨0, some "A", EMP_TEXT, none⟩, ⟨0, some "A", AHE_TEXT, none⟩] 0 = none ∧
    (some (0 : ℚ) ≠ (none : Option ℚ)) :=
  ⟨rfl, by decide, by decide⟩

/-- C5: for a date all of whose employment values are null or zero (so the
total earnings weight is zero, or no earnings row acquires a weight), the
weighted average in the output is null; the division itself never raises (the
zero-denominator division is 0.0/0.0 = NaN, i.e. null). -/
theorem collapse_zero_weight_avg_null (df : List CRow) (out : List OutRow) (r : OutRow)
    (hok : collapse_career df = .ok out) (hr : r ∈ out)
    (hw : ∀ e ∈ df, e.datatype_text = EMP_TEXT → e.date = r.date →
      (e.value = none ∨ e.value = some 0)) :
    r.avg_hourly_earnings = none := by
  rw [collapse_career_ok df out hok] at hr
  rcases (mem_collapse_rows_iff df r).mp hr with ⟨d, hd, rfl⟩
  show earnOut df d = none
  by_cases hmem : d ∈ (earnW df).map (fun p => p.1.date)
  · simp only [earnOut, if_pos hmem, earnGroupAvg]
    have hzero : optSum (((earnW df).filter (fun p => p.1.date == d)).map
        (fun p => p.2)) = 0 := by
      apply optSum_eq_zero
      intro x hx
      rcases List.mem_map.mp hx with ⟨p, hp, rfl⟩
      exact earnW_weight_null_or_zero df d hw p hp
    rw [if_pos hzero]
  · simp only [earnOut, if_neg hmem]

/-- Instance of C5 at a concrete input: a date with one earnings row whose
matching employment value is null yields a null average, not an error. -/
theorem collapse_zero_weight_avg_null_witness :
    (⟨2, some 0, none⟩ : OutRow).avg_hourly_earnings = none :=
  collapse_zero_weight_avg_null
    [⟨2, some "A", EMP_TEXT, none⟩, ⟨2, some "A", AHE_TEXT, some 4⟩]
    [⟨2, some 0, none⟩] ⟨2, some 0, none⟩ rfl (by decide) (by decide)

/-- C3 (amended): whenever `collapse_career` produces an output table, its
dates are exactly the dates of the employment rows — a date present only in
the earnings rows is dropped, because the final merge is a left join on the
employment side — and an employment date with no earnings rows appears with a
null weighted average; an input with no earnings rows at all makes the code
raise instead of producing any output. -/
theorem collapse_dates_from_employment_side (df : List CRow) (d : Int)
    (out : List OutRow) (hok : collapse_career df = .ok out) :
    ((∃ e ∈ df, e.datatype_text = EMP_TEXT ∧ e.date = d) ↔
      (∃ r ∈ out, r.date = d)) ∧
    ((∃ e ∈ df, e.datatype_text = EMP_TEXT ∧ e.date = d) →
      (∀ e ∈ df, e.datatype_text = AHE_TEXT → e.date ≠ d) →
      ∃ r ∈ out, r.date = d ∧ r.avg_hourly_earnings = none) ∧
    (earnRows df = [] → collapse_career df = .error ()) := by
  obtain rfl : out = collapse_rows df := collapse_career_ok df out hok
  refine ⟨?_, ?_, collapse_career_error_of_no_earn df⟩
  · constructor
    · rintro ⟨e, he, hdt, hdate⟩
      refine ⟨⟨d, some (empSumAt df d), earnOut df d⟩,
        (mem_collapse_rows_iff df _).mpr ⟨d, ?_, rfl⟩, rfl⟩
      exact List.mem_map.mpr ⟨e, List.mem_filter.mpr ⟨he, beq_iff_eq.mpr hdt⟩, hdate⟩
    · rintro ⟨r, hr, hdate⟩
      rcases (mem_collapse_rows_iff df r).mp hr with ⟨dd, hdd, rfl⟩
      rcases List.mem_map.mp hdd with ⟨e, he, hedate⟩
      rcases List.mem_filter.mp he with ⟨hedf, hedt⟩
      exact ⟨e, hedf, beq_iff_eq.mp hedt, hedate.trans hdate⟩
  · intro h1 h2
    rcases h1 with ⟨e, he, hdt, hdate⟩
    refine ⟨⟨d, some (empSumAt df d), earnOut df d⟩,
      (mem_collapse_rows_iff df _).mpr
        ⟨d, List.mem_map.mpr ⟨e, List.mem_filter.mpr ⟨he, beq_iff_eq.mpr hdt⟩, hdate⟩, rfl⟩,
      rfl, ?_⟩
    have hno : d ∉ (earnW df).map (fun p => p.1.date) := by
      rw [earnW_dates_mem]
      intro hc
      rcases List.mem_map.mp hc with ⟨x, hx, hxdate⟩
      rcases List.mem_filter.mp hx with ⟨hxdf, hxdt⟩
      exact h2 x hxdf (beq_iff_eq.mp hxdt) hxdate
    show earnOut df d = none
    simp only [earnOut, if_neg hno]

/-- Instance of C3's amended statement at a concrete non-raising input: date 5
has an employment row and no earnings rows (the earnings partition is kept
nonempty by a row at date 4). -/
theorem collapse_dates_from_employment_side_witness :
    ∃ r ∈ ([⟨5, some 0, none⟩] : List OutRow),
      r.date = 5 ∧ r.avg_hourly_earnings = none :=
  (collapse_dates_from_employment_side
    [⟨5, some "A", EMP_TEXT, none⟩, ⟨4, some "A", AHE_TEXT, none⟩] 5
    [⟨5, some 0, none⟩] rfl).2.1 (by decide) (by decide)

/-- C3 fails as stated: a date present only on the earnings side does not
appear in the output at all — here the run succeeds (the earnings partition is
nonempty) and returns an empty table, dropping date 0 instead of emitting it
with a null employment field. -/
theorem collapse_drops_earnings_only_date :
    collapse_career [⟨0, some "A", AHE_TEXT, some 10⟩] = .ok [] ∧
    (⟨0, some "A", AHE_TEXT, some 10⟩ : CRow).datatype_text = AHE_TEXT :=
  ⟨rfl, rfl⟩

/-- C1 (amended): with unique employment (date, industry code) keys, the
weighted average of every output row equals Σ(earnings·weight) over rows with
a non-null earnings value and non-null matching weight, divided by Σ(weight)
over all earnings rows of the date with a non-null matching weight — the
denominator also counts weights of null-earnings rows, which is where the
original claim fails; the claim's concrete example (earnings 10 and 20,
weights 100 and 300, average 17.5) is reproduced. -/
theorem collapse_weighted_avg_eq_pandas_formula (df : List CRow) (out : List OutRow)
    (h : ((empRows df).map (fun e => (e.date, e.industry_code))).Nodup)
    (hok : collapse_career df = .ok out) :
    (∀ r ∈ out, r.avg_hourly_earnings = pandasWeightedAvg df r.date) ∧
    collapse_career
      [⟨0, some "A", EMP_TEXT, some 100⟩, ⟨0, some "B", EMP_TEXT, some 300⟩,
       ⟨0, some "A", AHE_TEXT, some 10⟩, ⟨0, some "B", AHE_TEXT, some 20⟩] =
      .ok [⟨0, some 400, some (35/2)⟩] := by
  constructor
  · intro r hr
    rw [collapse_career_ok df out hok] at hr
    rcases (mem_collapse_rows_iff df r).mp hr with ⟨d, hd, rfl⟩
    exact earnOut_eq_pandas df h d
  · simp [collapse_career, emp_m, earn_m, earnAvgRows, earnW, earnGroupAvg, empRows,
      earnRows, empSumAt, earnOut, leftMerge, groupKeys, sortByKey, insertByKey, optSum,
      EMP_TEXT, AHE_TEXT, List.dedup]
    norm_num

/-- Instance of C1's amended statement at a concrete non-raising input. -/
theorem collapse_weighted_avg_eq_pandas_formula_witness :
    (⟨2, some 0, none⟩ : OutRow).avg_hourly_earnings =
      pandasWeightedAvg [⟨2, some "A", EMP_TEXT, none⟩, ⟨2, some "A", AHE_TEXT, none⟩]
        (⟨2, some 0, none⟩ : OutRow).date :=
  (collapse_weighted_avg_eq_pandas_formula
    [⟨2, some "A", EMP_TEXT, none⟩, ⟨2, some "A", AHE_TEXT, none⟩]
    [⟨2, some 0, none⟩] (by decide) rfl).1 ⟨2, some 0, none⟩ (by decide)

/-- C1 fails as stated: with earnings (10, null) and weights (100, 300), the
claim's both-sums-over-qualifying-rows formula gives 10, but the code gives
5/2 because its denominator also counts the weight 300 of the null-earnings
row. -/
theorem collapse_weighted_avg_claim_false :
    collapse_career
      [⟨0, some "A", EMP_TEXT, some 100⟩, ⟨0, some "B", EMP_TEXT, some 300⟩,
       ⟨0, some "A", AHE_TEXT, some 10⟩, ⟨0, some "B", AHE_TEXT, none⟩] =
      .ok [⟨0, some 400, some (5/2)⟩] ∧
    claimWeightedAvg
      [⟨0, some "A", EMP_TEXT, some 100⟩, ⟨0, some "B", EMP_TEXT, some 300⟩,
       ⟨0, some "A", AHE_TEXT, some 10⟩, ⟨0, some "B", AHE_TEXT, none⟩] 0 = some 10 ∧
    (some ((5 : ℚ)/2) ≠ some (10 : ℚ)) := by
  refine ⟨?_, ?_, by norm_num⟩
  · simp [collapse_career, emp_m, earn_m, earnAvgRows, earnW, earnGroupAvg, empRows,
      earnRows, empSumAt, earnOut, leftMerge, groupKeys, sortByKey, insertByKey, optSum,
      EMP_TEXT, AHE_TEXT, List.dedup]
    norm_num
  · simp [claimWeightedAvg, empRows, earnRows, EMP_TEXT, AHE_TEXT]

/-! ### Claim theorems for the classification matcher, dates, and schema
resolution -/

/-- C2: on whitespace-free inputs, `naics_mask` is true for a non-null value iff
the value equals one of the exact codes or starts with one of the prefix
strings; a null value never matches; exact matching is not prefix matching
("541430" does not match exact code "54143"), while prefix matching includes
equality ("8111" matches prefix "8111", "811192" matches, "81129" does not). -/
theorem naics_mask_spec (v : String) (exact prefs : List String)
    (hv : pyStrip v = v) (he : ∀ c ∈ exact, pyStrip c = c)
    (hp : ∀ p ∈ prefs, pyStrip p = p) :
    (naics_mask (some v) exact prefs = true ↔
      v ∈ exact ∨ ∃ p ∈ prefs, p.data <+: v.data) ∧
    naics_mask none exact prefs = false ∧
    naics_mask (some "54143") ["54143"] [] = true ∧
    naics_mask (some "541430") ["54143"] [] = false ∧
    naics_mask (some "811192") [] ["8111"] = true ∧
    naics_mask (some "8111") [] ["8111"] = true ∧
    naics_mask (some "81129") [] ["8111"] = false := by
  refine ⟨?_, rfl, by decide, by decide, by decide, by decide, by decide⟩
  have hmap : exact.map pyStrip = exact := by
    calc exact.map pyStrip = exact.map id := List.map_congr_left he
    _ = exact := List.map_id exact
  simp only [naics_mask, Option.map_some', hv, hmap, Bool.or_eq_true, decide_eq_true_eq,
    List.any_eq_true]
  constructor
  · rintro (h1 | ⟨p, hpmem, hps⟩)
    · exact Or.inl h1
    · refine Or.inr ⟨p, hpmem, ?_⟩
      rw [hp p hpmem] at hps
      exact (charsStartWith_iff v.data p.data).mp hps
  · rintro (h1 | ⟨p, hpmem, hps⟩)
    · exact Or.inl h1
    · refine Or.inr ⟨p, hpmem, ?_⟩
      rw [hp p hpmem]
      exact (charsStartWith_iff v.data p.data).mpr hps

/-- Instance of C2 at a concrete input. -/
theorem naics_mask_spec_witness : naics_mask (some "54143") ["54143"] [] = true :=
  (naics_mask_spec "54143" ["54143"] [] (by decide) (by decide) (by decide)).2.2.1

/-- C10: `find_col` returns the first candidate present among the columns, and
returns an error if and only if no candidate is present; the error payload is
always exactly the list of candidates tried (the descriptive message). -/
theorem find_col_spec (cols cands : List String) :
    (∀ c, find_col cols cands = .ok c ↔
      (c ∈ cols ∧ ∃ pre post, cands = pre ++ c :: post ∧ ∀ x ∈ pre, x ∉ cols)) ∧
    (find_col cols cands = .error cands ↔ ∀ c ∈ cands, c ∉ cols) ∧
    (∀ e, find_col cols cands = .error e → e = cands) := by
  have hiff : ∀ c, cands.find? (fun x => decide (x ∈ cols)) = some c ↔
      (c ∈ cols ∧ ∃ pre post, cands = pre ++ c :: post ∧ ∀ x ∈ pre, x ∉ cols) := by
    intro c
    rw [find?_eq_some_split]
    constructor
    · rintro ⟨h1, pre, post, h3, h4⟩
      exact ⟨of_decide_eq_true h1, pre, post, h3,
        fun x hx => of_decide_eq_false (h4 x hx)⟩
    · rintro ⟨h1, pre, post, h3, h4⟩
      exact ⟨decide_eq_true h1, pre, post, h3, fun x hx => decide_eq_false (h4 x hx)⟩
  have hnone : cands.find? (fun x => decide (x ∈ cols)) = none ↔ ∀ c ∈ cands, c ∉ cols := by
    rw [List.find?_eq_none]
    constructor
    · intro h c hc hcc
      exact (h c hc) (decide_eq_true hcc)
    · intro h c hc hd
      exact h c hc (of_decide_eq_true hd)
  refine ⟨?_, ?_, ?_⟩
  · intro c
    unfold find_col
    cases hf : cands.find? (fun x => decide (x ∈ cols)) with
    | some c0 =>
      constructor
      · intro h
        have hc0 : c0 = c := by injection h
        subst hc0
        exact (hiff c0).mp hf
      · intro hc
        have hs := (hiff c).mpr hc
        rw [hf] at hs
        have : c0 = c := by injection hs
        rw [this]
    | none =>
      constructor
      · intro h
        exact Except.noConfusion h
      · intro hc
        have hs := (hiff c).mpr hc
        rw [hf] at hs
        exact Option.noConfusion hs
  · unfold find_col
    cases hf : cands.find? (fun x => decide (x ∈ cols)) with
    | some c0 =>
      constructor
      · intro h
        exact Except.noConfusion h
      · intro hall
        have hs := hnone.mpr hall
        rw [hf] at hs
        exact Option.noConfusion hs
    | none =>
      constructor
      · intro _
        exact hnone.mp hf
      · intro _
        rfl
  · intro e
    unfold find_col
    cases hf : cands.find? (fun x => decide (x ∈ cols)) with
    | some c0 =>
      intro h
      exact Except.noConfusion h
    | none =>
      intro h
      have : cands = e := by injection h
      exact this.symm

/-- Instance of C10 at a concrete input: no candidate present gives the error
naming the candidates. -/
theorem find_col_spec_witness :
    find_col ["series_id", "year"] ["industry_code", "industry"] =
      .error ["industry_code", "industry"] :=
  (find_col_spec ["series_id", "year"] ["industry_code", "industry"]).2.1.mpr (by decide)

/-- C7 (amended): the period codes M01..M12 map to the first day of months
1..12 of the given (Timestamp-representable) year; a period code whose
M-stripped text is an integer with no such month maps to a null date
(`errors="coerce"` yields NaT); but a period code whose M-stripped text is not
an integer makes `astype(int)` raise, contrary to the original claim's
"null rather than an exception". -/
theorem make_monthly_date_spec (y : Int) (hy1 : 1678 ≤ y) (hy2 : y ≤ 2261) :
    make_monthly_date y "M01" = .ok (some (y, 1)) ∧
    make_monthly_date y "M02" = .ok (some (y, 2)) ∧
    make_monthly_date y "M03" = .ok (some (y, 3)) ∧
    make_monthly_date y "M04" = .ok (some (y, 4)) ∧
    make_monthly_date y "M05" = .ok (some (y, 5)) ∧
    make_monthly_date y "M06" = .ok (some (y, 6)) ∧
    make_monthly_date y "M07" = .ok (some (y, 7)) ∧
    make_monthly_date y "M08" = .ok (some (y, 8)) ∧
    make_monthly_date y "M09" = .ok (some (y, 9)) ∧
    make_monthly_date y "M10" = .ok (some (y, 10)) ∧
    make_monthly_date y "M11" = .ok (some (y, 11)) ∧
    make_monthly_date y "M12" = .ok (some (y, 12)) ∧
    make_monthly_date y "M13" = .ok none ∧
    make_monthly_date y "M00" = .ok none ∧
    make_monthly_date y "M0A" = .error () := by
  have hts : ∀ m : Int, tsOK y m = true := by
    intro m
    exact decide_eq_true (Or.inl ⟨hy1, hy2⟩)
  have hmk : ∀ (p : String) (m : Int),
      pyInt? ⟨p.data.filter (fun c => c != 'M')⟩ = some m →
      make_monthly_date y p =
        .ok (if 1 ≤ m ∧ m ≤ 12 ∧ tsOK y m then some (y, m) else none) := by
    intro p m hpm
    unfold make_monthly_date
    rw [hpm]
  refine ⟨?_, ?_, ?_, ?_, ?_, ?_, ?_, ?_, ?_, ?_, ?_, ?_, rfl, rfl, rfl⟩
  · rw [hmk "M01" 1 (by decide), if_pos ⟨by norm_num, by norm_num, hts 1⟩]
  · rw [hmk "M02" 2 (by decide), if_pos ⟨by norm_num, by norm_num, hts 2⟩]
  · rw [hmk "M03" 3 (by decide), if_pos ⟨by norm_num, by norm_num, hts 3⟩]
  · rw [hmk "M04" 4 (by decide), if_pos ⟨by norm_num, by norm_num, hts 4⟩]
  · rw [hmk "M05" 5 (by decide), if_pos ⟨by norm_num, by norm_num, hts 5⟩]
  · rw [hmk "M06" 6 (by decide), if_pos ⟨by norm_num, by norm_num, hts 6⟩]
  · rw [hmk "M07" 7 (by decide), if_pos ⟨by norm_num, by norm_num, hts 7⟩]
  · rw [hmk "M08" 8 (by decide), if_pos ⟨by norm_num, by norm_num, hts 8⟩]
  · rw [hmk "M09" 9 (by decide), if_pos ⟨by norm_num, by norm_num, hts 9⟩]
  · rw [hmk "M10" 10 (by decide), if_pos ⟨by norm_num, by norm_num, hts 10⟩]
  · rw [hmk "M11" 11 (by decide), if_pos ⟨by norm_num, by norm_num, hts 11⟩]
  · rw [hmk "M12" 12 (by decide), if_pos ⟨by norm_num, by norm_num, hts 12⟩]

/-- Instance of C7's amended statement at a concrete input. -/
theorem make_monthly_date_spec_witness : make_monthly_date 2020 "M05" = .ok (some (2020, 5)) :=
  (make_monthly_date_spec 2020 (by norm_num) (by norm_num)).2.2.2.2.1

/-- C7 fails as stated: the malformed period code "M0A" raises a `ValueError`
in `astype(int)` instead of producing a null date. -/
theorem make_monthly_date_raises_on_malformed :
    make_monthly_date 2020 "M0A" = .error () ∧
    ¬ make_monthly_date 2020 "M0A" = .ok none ∧
    monthlyMatch "M0A" = false := by
  refine ⟨rfl, ?_, by decide⟩
  intro hc
  exact Except.noConfusion hc

/-! ### Claim theorems for the dictionary builder and the extractor -/

/-- Under unique reference keys the double left-join acts row-wise: each series
row yields exactly its `dictRowFor` row. -/
theorem build_dictionary_eq_map (s : List SeriesRow) (ind : List IndustryRow)
    (dt : List DatatypeRow)
    (hind : (ind.map (fun i => i.industry_code)).Nodup)
    (hdt : (dt.map (fun d => d.datatype_code)).Nodup) :
    build_dictionary s ind dt = s.map (dictRowFor ind dt) := by
  have hu1 : ∀ a ∈ s,
      (ind.filter (fun ir => ir.industry_code == a.industry_code)).length ≤ 1 := by
    intro a _
    exact length_filter_le_one ind _ (fun i => i.industry_code) a.industry_code hind
      (fun b hb => beq_iff_eq.mp hb)
  unfold build_dictionary
  rw [leftMerge_eq_map_of_unique s ind _ _ _ hu1]
  have hu2 : ∀ p ∈ s.map (fun sr =>
      ((ind.find? (fun ir => ir.industry_code == sr.industry_code)).map
        (fun ir => (sr, ir.naics_code, ir.industry_name))).getD (sr, none, none)),
      (dt.filter (fun dr => dr.datatype_code == p.1.datatype_code)).length ≤ 1 := by
    intro p _
    exact length_filter_le_one dt _ (fun d => d.datatype_code) p.1.datatype_code hdt
      (fun b hb => beq_iff_eq.mp hb)
  rw [leftMerge_eq_map_of_unique _ dt _ _ _ hu2, List.map_map]
  apply List.map_congr_left
  intro sr _
  simp only [Function.comp_apply]
  cases h1 : ind.find? (fun ir => ir.industry_code == sr.industry_code) with
  | some ir =>
    simp only [Option.map_some', Option.getD_some]
    cases h2 : dt.find? (fun dr => dr.datatype_code == sr.datatype_code) with
    | some dr => simp [dictRowFor, h1, h2]
    | none => simp [dictRowFor, h1, h2]
  | none =>
    simp only [Option.map_none', Option.getD_none]
    cases h2 : dt.find? (fun dr => dr.datatype_code == sr.datatype_code) with
    | some dr => simp [dictRowFor, h1, h2]
    | none => simp [dictRowFor, h1, h2]

/-- C6: with reference tables keyed uniquely, the dictionary has exactly one
row per series row, and a series row whose industry code or datatype code is
absent from the corresponding reference table still appears, with null
industry name (and NAICS code) or null datatype text. -/
theorem build_dictionary_left_join_spec (s : List SeriesRow) (ind : List IndustryRow)
    (dt : List DatatypeRow)
    (hind : (ind.map (fun i => i.industry_code)).Nodup)
    (hdt : (dt.map (fun d => d.datatype_code)).Nodup) :
    (build_dictionary s ind dt).length = s.length ∧
    ∀ sr ∈ s, ∃ r ∈ build_dictionary s ind dt,
      r.series_id = sr.series_id ∧ r.industry_code = sr.industry_code ∧
      r.datatype_code = sr.datatype_code ∧
      ((∀ ir ∈ ind, ir.industry_code ≠ sr.industry_code) →
        r.industry_name = none ∧ r.naics_code = none) ∧
      ((∀ dr ∈ dt, dr.datatype_code ≠ sr.datatype_code) → r.datatype_text = none) := by
  rw [build_dictionary_eq_map s ind dt hind hdt]
  constructor
  · rw [List.length_map]
  · intro sr hsr
    refine ⟨dictRowFor ind dt sr, List.mem_map.mpr ⟨sr, hsr, rfl⟩, rfl, rfl, rfl, ?_, ?_⟩
    · intro hno
      have hf : ind.find? (fun ir => ir.industry_code == sr.industry_code) = none :=
        List.find?_eq_none.mpr (fun ir hir hc => hno ir hir (beq_iff_eq.mp hc))
      simp [dictRowFor, hf]
    · intro hno
      have hf : dt.find? (fun dr => dr.datatype_code == sr.datatype_code) = none :=
        List.find?_eq_none.mpr (fun dr hdr hc => hno dr hdr (beq_iff_eq.mp hc))
      simp [dictRowFor, hf]

/-- Instance of C6 at a concrete input: two series rows, one with an unmatched
industry code, give a two-row dictionary. -/
theorem build_dictionary_left_join_spec_witness :
    (build_dictionary
      [⟨"S1", some "10", some "01", some "U"⟩, ⟨"S2", some "99", some "77", some "S"⟩]
      [⟨some "10", some "8111", some "Auto repair"⟩]
      [⟨some "01", some EMP_TEXT⟩]).length =
    ([⟨"S1", some "10", some "01", some "U"⟩,
      ⟨"S2", some "99", some "77", some "S"⟩] : List SeriesRow).length :=
  (build_dictionary_left_join_spec
    [⟨"S1", some "10", some "01", some "U"⟩, ⟨"S2", some "99", some "77", some "S"⟩]
    [⟨some "10", some "8111", some "Auto repair"⟩]
    [⟨some "01", some EMP_TEXT⟩] (by decide) (by decide)).1

/-- C8: every row of a successful extraction has a period code among the twelve
monthly codes M01..M12 — the monthly filter admits only those (stripping the
key column beforehand rules the trailing-newline regex matches out), and the
later join and filters only remove rows. -/
theorem prep_extract_periods_monthly (data : List DataRow) (sdict : List DictRow)
    (exact prefs measures : List String) (out : List ObsRow)
    (h : prep_extract data sdict exact prefs measures = .ok out) :
    ∀ r ∈ out, r.period ∈ monthlyCodes := by
  intro r hr
  unfold prep_extract at h
  cases hm : mapExcept (fun p => (make_date p.1.year p.1.period).map (mkObs p.1 p.2))
      (prepMerged data sdict) with
  | error e =>
    rw [hm] at h
    exact Except.noConfusion h
  | ok rows =>
    rw [hm] at h
    injection h with hout
    rw [← hout] at hr
    have hr1 := (List.mem_filter.mp hr).1
    have hr2 := (List.mem_filter.mp hr1).1
    rcases List.mem_map.mp hr2 with ⟨r0, hr0, rfl⟩
    show r0.period ∈ monthlyCodes
    rcases mapExcept_ok_mem _ _ _ hm r0 hr0 with ⟨p, hp, hfp⟩
    cases hd : make_date p.1.year p.1.period with
    | error e =>
      rw [hd] at hfp
      exact Except.noConfusion hfp
    | ok dd =>
      rw [hd] at hfp
      simp only [Except.map] at hfp
      injection hfp with hobs
      rw [← hobs]
      show p.1.period ∈ monthlyCodes
      unfold prepMerged at hp
      rcases mem_leftMerge.mp hp with ⟨a, ha, hcase⟩
      have hpa : p.1 = a := by
        rcases hcase with ⟨rfl, -⟩ | ⟨b, -, rfl⟩ <;> rfl
      rw [hpa]
      unfold prepMonthly at ha
      rcases List.mem_filter.mp ha with ⟨hstrip, hmatch⟩
      unfold prepStrip at hstrip
      rcases List.mem_map.mp hstrip with ⟨r1, hr1d, rfl⟩
      exact monthly_of_match_strip r1.period hmatch

/-- Instance of C8 at a concrete one-row extraction. -/
theorem prep_extract_periods_monthly_witness : ("M01" : String) ∈ monthlyCodes :=
  prep_extract_periods_monthly [⟨"S1", 2020, "M01", some 5⟩]
    [⟨"S1", some "10", some "01", some "U", some "8111", some "Auto", some EMP_TEXT⟩]
    [] ["8111"] [EMP_TEXT]
    [⟨"S1", 2020, "M01", some 5, some "10", some "01", some "U", some "8111",
      some "Auto", some EMP_TEXT, (2020, 1)⟩]
    rfl
    ⟨"S1", 2020, "M01", some 5, some "10", some "01", some "U", some "8111",
      some "Auto", some EMP_TEXT, (2020, 1)⟩
    (by decide)
